import Mathlib

/-!
Verification development for the beats resumable-collection core.

The definitions below are a shallow embedding of two source files:

* `x-pack/filebeat/input/o365audit/input.go` — the o365audit input:
  checkpoint initialisation (`initCheckpoint`), the outer retry loop
  (`o365input.Run`) and event construction (`apiEnvironment.toBeatEvent`).
* `libbeat/processors/add_docker_metadata/add_docker_metadata.go` — the
  add_docker_metadata processor: lazy cgroup-cache initialisation,
  `Run` and `lookupContainerIDByPID`.

Time values (`time.Time`, `time.Duration`) are embedded as integers
(an absolute tick count, resp. a tick duration).  Logging is embedded as
a list of message tags returned alongside the result, and the effects of
the stateful loops (publishing, status updates, waits, cache reads) are
embedded as explicit traces of items.
-/

namespace O365

/-- The persisted cursor state of one o365audit stream
(`checkpoint` in the source: `Timestamp time.Time`, `Line int`,
`StartTime time.Time`; the field shape is taken from its uses in
`input.go`: `cp.Timestamp`, `start.Line`, `start.StartTime`). -/
structure Checkpoint where
  Timestamp : Int
  StartTime : Int
  Line : Nat
deriving DecidableEq, Repr

/-- The zero value of `checkpoint` (`var cp checkpoint`). -/
def Checkpoint.zero : Checkpoint := { Timestamp := 0, StartTime := 0, Line := 0 }

/-- The three observable states of a `cursor.Cursor` in `initCheckpoint`:
a brand-new cursor (`c.IsNew()`), a cursor whose `Unpack` fails, and a
cursor that deserialises to a checkpoint. -/
inductive CursorState where
  | fresh
  | unpackFailed
  | loaded (cp : Checkpoint)
deriving DecidableEq, Repr

/-- Tags for the three log messages emitted by `initCheckpoint`. -/
inductive CkptLog where
  | noSavedState
  | errorLoadingState
  | retentionLimitExceeded
deriving DecidableEq, Repr

/-- Embedding of `initCheckpoint` (input.go lines 203-234): starting from
the zero checkpoint, a new cursor or a failed `Unpack` sets `Timestamp`
to `now - maxRetention` (logging a message), a loaded checkpoint is kept;
afterwards a `Timestamp` before the retention limit is clamped to the
limit with a data-loss warning.  The returned list holds the log
messages emitted on the way. -/
def initCheckpoint (now : Int) (c : CursorState) (maxRetention : Int) :
    Checkpoint × List CkptLog :=
  let retentionLimit := now - maxRetention
  let start : Checkpoint × List CkptLog :=
    match c with
    | .fresh =>
        ({ Checkpoint.zero with Timestamp := retentionLimit }, [.noSavedState])
    | .unpackFailed =>
        ({ Checkpoint.zero with Timestamp := retentionLimit }, [.errorLoadingState])
    | .loaded cp => (cp, [])
  let cp := start.1
  if cp.Timestamp < retentionLimit then
    ({ cp with Timestamp := retentionLimit }, start.2 ++ [.retentionLimitExceeded])
  else
    (cp, start.2)

/-- Embedding of the caller's use of the checkpoint (input.go lines
195-197): the start action is given an explicit start time exactly when
the checkpoint's `Line` is positive (`if start.Line > 0 { action =
action.WithStartTime(start.StartTime) }`). -/
def runStartTimeOverride (start : Checkpoint) : Option Int :=
  if 0 < start.Line then some start.StartTime else none

/-- Values stored in a record document (`mapstr.M`).  `Value.time t`
stands for a string field that parses as the instant `t` under the
accepted date formats; `Value.str` is a string that does not parse as a
date. -/
inductive Value where
  | str (s : String)
  | time (t : Int)
  | num (n : Int)
  | null
deriving DecidableEq, Repr

/-- A parsed record document: association list from field name to value. -/
def Doc := List (String × Value)
deriving DecidableEq, Repr

/-- Field lookup in a document. -/
def lookupKey (doc : Doc) (k : String) : Option Value :=
  (List.find? (fun p => p.1 == k) doc).map (fun p => p.2)

/-- Modelled from the spec: `getDateKey` ("derives the timestamp from
the record's declared creation time; if parsing fails ...") — its body
lives outside the sampled sources.  It returns the parsed instant of a
date-valued field and an error when the field is missing or does not
parse with any accepted format (a parseable field is represented by the
`Value.time` constructor). -/
def getDateKey (doc : Doc) (key : String) : Except String Int :=
  match lookupKey doc key with
  | some (.time t) => .ok t
  | some _ => .error (key ++ " is not a valid date")
  | none => .error (key ++ " not found")

/-- Modelled from the spec: `getString` — its body lives outside the
sampled sources; per its use in `toBeatEvent` it returns the value of a
field when that value is a string, and an error otherwise. -/
def getString (doc : Doc) (key : String) : Except String String :=
  match lookupKey doc key with
  | some (.str s) => .ok s
  | some _ => .error (key ++ " is not a string")
  | none => .error (key ++ " not found")

/-- Values held in a `beat.Event`'s fields. -/
inductive EvValue where
  | str (s : String)
  | strList (l : List String)
  | doc (d : List (String × Value))
deriving DecidableEq, Repr

/-- Embedding of `beat.Event`: timestamp, fields (flat association list
keyed by the full dotted path, standing in for the nested `mapstr.M`)
and the optional explicit event ID set through `SetID`. -/
structure BeatEvent where
  Timestamp : Int
  Fields : List (String × EvValue)
  ID : Option String
deriving DecidableEq, Repr

/-- `PutValue` on an event's fields: replace the value at a key, or
append the key when absent. -/
def putField (e : BeatEvent) (k : String) (v : EvValue) : BeatEvent :=
  if (List.find? (fun p => p.1 == k) e.Fields).isSome then
    { e with Fields := e.Fields.map (fun p => if p.1 == k then (k, v) else p) }
  else
    { e with Fields := e.Fields ++ [(k, v)] }

/-- `GetValue` on an event's fields. -/
def BeatEvent.getField (e : BeatEvent) (k : String) : Option EvValue :=
  (List.find? (fun p => p.1 == k) e.Fields).map (fun p => p.2)

/-- The configuration fields of `APIConfig` consumed by `input.go`
(the config struct itself is defined outside the sampled sources; the
field shape is taken from its uses: `env.config.SetIDFromAuditRecord`,
`env.config.PreserveOriginalEvent`). -/
structure APIConfig where
  SetIDFromAuditRecord : Bool
  PreserveOriginalEvent : Bool
deriving DecidableEq, Repr

/-- Embedding of `apiEnvironment.toBeatEvent` (input.go lines 272-303):
parse `CreationTime` (falling back to `now` and recording a parse
error), build the event with the document under the `o365audit` fields
key, optionally set the event ID from a non-empty string `Id` field,
optionally preserve the raw record, and finally attach the collected
error messages under `error.message`. -/
def toBeatEvent (cfg : APIConfig) (now : Int) (raw : String) (doc : Doc) :
    BeatEvent :=
  let tsRes := getDateKey doc "CreationTime"
  let ts := match tsRes with
    | .ok t => t
    | .error _ => now
  let errs : List String := match tsRes with
    | .ok _ => []
    | .error e => ["failed parsing CreationTime: " ++ e]
  let b : BeatEvent := { Timestamp := ts, Fields := [("o365audit", .doc doc)], ID := none }
  let b := if cfg.SetIDFromAuditRecord then
      match getString doc "Id" with
      | .ok id => if 0 < id.length then { b with ID := some id } else b
      | .error _ => b
    else b
  let b := if cfg.PreserveOriginalEvent then putField b "event.original" (.str raw) else b
  if errs.isEmpty then b else putField b "error.message" (.strList errs)

/-- Status values reported through the `status.StatusReporter`. -/
inductive Status where
  | Starting
  | Running
  | Degraded
  | Failed
deriving DecidableEq, Repr

/-- The error value returned by one iteration of `inp.run`:
`nil`, the `context.Canceled` sentinel, the `context.DeadlineExceeded`
sentinel, or any other error (carrying its `Error()` text). -/
inductive RunErr where
  | ok
  | canceled
  | deadlineExceeded
  | other (msg : String)
deriving DecidableEq, Repr

/-- The possible non-nil results of `ctx.Cancelation.Err()`. -/
inductive CtxErr where
  | canceled
  | deadlineExceeded
deriving DecidableEq, Repr

/-- `err.Error()` for the embedded errors. -/
def RunErr.text : RunErr → String
  | .ok => ""
  | .canceled => "context canceled"
  | .deadlineExceeded => "context deadline exceeded"
  | .other msg => msg

/-- The Go identity comparison `err == ctx.Cancelation.Err()` as used in
the `switch` of `o365input.Run`: an error equals the context's error
exactly when both are the same context sentinel (a non-sentinel error is
a distinct value from the singletons `context.Canceled` and
`context.DeadlineExceeded`). -/
def runErrIsCtxErr : RunErr → Option CtxErr → Bool
  | .canceled, some .canceled => true
  | .deadlineExceeded, some .deadlineExceeded => true
  | _, _ => false

/-- The environment one iteration of the outer loop observes:
`ctxErrHead` is `ctx.Cancelation.Err()` at the loop condition,
`ctxErrSwitch` the same call inside the `switch` (a context error can
appear between the two reads), `runResult` the error returned by
`inp.run`, `pubErr` the error of `pub.Publish` for the error event, and
`now` the wall clock used for that event's timestamp. -/
structure StepInput where
  ctxErrHead : Option CtxErr
  ctxErrSwitch : Option CtxErr
  runResult : RunErr
  pubErr : Option String
  now : Int

/-- Observable actions of `o365input.Run`. `ret` marks the function
returning `nil`. -/
inductive TraceItem where
  | publish (e : BeatEvent)
  | updateStatus (s : Status) (msg : String)
  | wait (d : Int)
  | ret
deriving DecidableEq, Repr

/-- The error event built in `o365input.Run` (lines 129-135): fields
`error.message` (the error text) and `event.kind = "pipeline_error"`,
timestamped with the current time. -/
def errorEvent (now : Int) (msg : String) : BeatEvent :=
  { Timestamp := now
    Fields := [("error.message", .str msg), ("event.kind", .str "pipeline_error")]
    ID := none }

/-- Embedding of the `for` loop of `o365input.Run` (lines 123-145) over
a finite list of iteration environments: while the cancellation context
reports no error, run one iteration; `nil` and `context.Canceled`
results return `nil`; an error different from the context's own error
publishes the error event (a publish failure adds a Degraded status),
reports Degraded, waits the error-retry interval and loops.  An
exhausted input list leaves the loop mid-flight (no `ret`). -/
def runLoop (retryInterval : Int) : List StepInput → List TraceItem
  | [] => []
  | s :: rest =>
    if s.ctxErrHead.isSome then [.ret]
    else
      match s.runResult with
      | .ok => [.ret]
      | .canceled => [.ret]
      | e =>
        if runErrIsCtxErr e s.ctxErrSwitch then
          runLoop retryInterval rest
        else
          .publish (errorEvent s.now e.text) ::
          ((match s.pubErr with
            | some m => [.updateStatus .Degraded ("failed to publish error: " ++ m)]
            | none => []) ++
           .updateStatus .Degraded e.text ::
           .wait retryInterval ::
           runLoop retryInterval rest)

/-- Embedding of `o365input.Run` for a well-typed stream source: report
`Starting`, then enter the loop. -/
def o365Run (retryInterval : Int) (steps : List StepInput) : List TraceItem :=
  .updateStatus .Starting "" :: runLoop retryInterval steps

/-- The events published by a trace, in order. -/
def publishedEvents (tr : List TraceItem) : List BeatEvent :=
  tr.filterMap (fun i => match i with | .publish e => some e | _ => none)

/-- A concrete iteration environment whose run fails with an ordinary
error (used to instantiate the loop theorems). -/
def sampleFailingStep : StepInput :=
  { ctxErrHead := none, ctxErrSwitch := none, runResult := .other "boom"
    pubErr := none, now := 5 }

/-- A concrete iteration environment whose run returns nil. -/
def sampleOkStep : StepInput :=
  { ctxErrHead := none, ctxErrSwitch := none, runResult := .ok
    pubErr := none, now := 0 }

end O365

namespace Docker

/-- A cached cgroup-cache entry (`Cache Entry` of the spec:
key, value, insertion time). -/
structure CacheEntry where
  value : String
  insertedAt : Int
deriving DecidableEq, Repr

/-- Modelled from the spec: `common.Cache` (the Bounded Metadata Cache,
spec section 4.5) — its implementation lives outside the sampled
sources.  Entries carry their insertion time; the TTL is fixed from
insertion (no refresh on read); the janitor sweep evicts expired
entries and then reclaims the oldest entries beyond the capacity bound,
recording every evicted key in `evictedLog`, which stands for the
invocations of the registered eviction listener. -/
structure Cache where
  ttl : Int
  capacity : Nat
  entries : List (Nat × CacheEntry)
  evictedLog : List Nat
deriving DecidableEq, Repr

/-- A fresh, empty cache with the given TTL and capacity. -/
def Cache.new (ttl : Int) (capacity : Nat) : Cache :=
  { ttl := ttl, capacity := capacity, entries := [], evictedLog := [] }

/-- `Put(k, v)`: insert or overwrite, resetting the entry's age.  The
new entry is placed at the head, so `entries` lists entries from newest
to oldest insertion. -/
def Cache.put (c : Cache) (now : Int) (k : Nat) (v : String) : Cache :=
  { c with entries :=
      (k, { value := v, insertedAt := now }) ::
        c.entries.filter (fun p => p.1 ≠ k) }

/-- `Get(k)`: found exactly when the key is present and its fixed
lifespan from insertion has not elapsed; a read never changes the
cache. -/
def Cache.get (c : Cache) (now : Int) (k : Nat) : Option String :=
  match List.find? (fun p => p.1 = k) c.entries with
  | some p => if c.ttl < now - p.2.insertedAt then none else some p.2.value
  | none => none

/-- One janitor sweep at time `now`: evict every entry whose age
exceeds the TTL, then drop the oldest surviving entries beyond the
capacity; each evicted key is handed to the eviction listener. -/
def Cache.sweep (c : Cache) (now : Int) : Cache :=
  let expired := c.entries.filter (fun p => c.ttl < now - p.2.insertedAt)
  let kept := c.entries.filter (fun p => ¬ c.ttl < now - p.2.insertedAt)
  { c with
    entries := kept.take c.capacity
    evictedLog := c.evictedLog ++ expired.map (fun p => p.1)
      ++ (kept.drop c.capacity).map (fun p => p.1) }

/-- Values stored in an event's fields as seen by the processor:
an integer (convertible to a PID by `common.TryToInt`), a string, or
any other value. -/
inductive DVal where
  | int (n : Nat)
  | str (s : String)
  | other
deriving DecidableEq, Repr

/-- The event consumed by the processor: a flat association list from
full dotted path to value (standing for the nested `mapstr.M`). -/
structure DEvent where
  fields : List (String × DVal)
deriving DecidableEq, Repr

/-- `event.GetValue`. -/
def DEvent.getVal (e : DEvent) (k : String) : Option DVal :=
  (List.find? (fun p => p.1 == k) e.fields).map (fun p => p.2)

/-- `event.PutValue`: replace or append. -/
def DEvent.putVal (e : DEvent) (k : String) (v : DVal) : DEvent :=
  if (List.find? (fun p => p.1 == k) e.fields).isSome then
    { fields := e.fields.map (fun p => if p.1 == k then (k, v) else p) }
  else
    { fields := e.fields ++ [(k, v)] }

/-- `GetValue` followed by `common.TryToInt` on one PID field: the PID
when the field is present with an integer value. -/
def eventPid (e : DEvent) (f : String) : Option Nat :=
  match e.getVal f with
  | some (.int n) => some n
  | _ => none

/-- Result of `cgreader.ProcessCgroupPaths(pid)`, with paths already
flattened (`cgroups.Flatten()`, each element one `ControllerPath`):
`notExist` stands for an error wrapping `fs.ErrNotExist`, `failed` for
any other error (with whatever partial path list was returned), `ok`
for a successful read. -/
inductive CgRes where
  | notExist
  | failed (paths : List String)
  | ok (paths : List String)
deriving DecidableEq, Repr

/-- The paths carried by a reader result. -/
def CgRes.paths : CgRes → List String
  | .notExist => []
  | .failed ps => ps
  | .ok ps => ps

/-- Embedding of `getProcessCgroups` (lines 297-306): errors are
passed through, and a successful read with an empty flattened path
list is turned into `fs.ErrNotExist`. -/
def getProcessCgroups (rd : Nat → CgRes) (pid : Nat) : CgRes :=
  match rd pid with
  | .ok ps => if ps.isEmpty then .notExist else .ok ps
  | r => r

/-- `\w` of the container-ID regexp: ASCII word character. -/
def isWordChar (c : Char) : Bool :=
  c.isAlphanum || c == '_'

/-- The leftmost run of exactly 64 consecutive word characters in a
string, as matched by the regexp of 64 word characters (line 308). -/
def wordRun64 : List Char → Option (List Char)
  | [] => none
  | c :: rest =>
    let pre := (c :: rest).take 64
    if pre.length == 64 && pre.all isWordChar then some pre
    else wordRun64 rest

/-- Embedding of `getContainerIDFromCgroups` (lines 314-323): the first
path containing a 64-character word run yields that run; otherwise the
empty string.  (The Go function also returns an error, which is `nil`
on every path.) -/
def getContainerIDFromCgroups : List String → String
  | [] => ""
  | p :: rest =>
    match wordRun64 p.toList with
    | some run => String.mk run
    | none => getContainerIDFromCgroups rest

/-- The container metadata returned by `watcher.Container`. -/
structure Container where
  ID : String
  Image : String
  Name : String
  Labels : List (String × String)
deriving DecidableEq, Repr

/-- The `addDockerMetadata` processor state.  `sourceProcessor` embeds
the optional `extract_field` sub-processor (an `actions` processor
outside the sampled sources) as a function from event to updated event
plus optional error; `watcher` and `cgreader` are the external docker
watcher and cgroup reader; `janitor` holds the sweep interval while the
cache's janitor runs. -/
structure ADM where
  fields : List String
  pidFields : List String
  sourceProcessor : Option (DEvent → DEvent × Option String)
  watcher : String → Option Container
  cgreader : Nat → CgRes
  cgroups : Option Cache
  janitor : Option Int
  dockerAvailable : Bool
  dedot : Bool

/-- `cgroupCacheExpiration = 5 * time.Minute`, in seconds. -/
def cgroupCacheExpiration : Int := 5 * 60

/-- Embedding of `lazyCgroupCacheInit` (lines 134-143): when the cache
field is nil, allocate a cache with the five-minute TTL, capacity 100
and the eviction listener, and start its janitor with a five-second
sweep interval; otherwise do nothing. -/
def lazyCgroupCacheInit (d : ADM) : ADM :=
  match d.cgroups with
  | some _ => d
  | none =>
      { d with
        cgroups := some (Cache.new cgroupCacheExpiration 100)
        janitor := some 5 }

/-- `d.cgroups.Put(pid, cid)` (the cache is non-nil at every call
site; a nil cache is left unchanged). -/
def cachePut (d : ADM) (now : Int) (pid : Nat) (cid : String) : ADM :=
  match d.cgroups with
  | some c => { d with cgroups := some (c.put now pid cid) }
  | none => d

/-- Observable side effects of one processor run. -/
inductive DTrace where
  | sourceProc
  | cacheHit (pid : Nat)
  | cgCall (pid : Nat) (res : CgRes)
  | cachePut (pid : Nat) (cid : String)
  | watcherLookup (cid : String)
deriving DecidableEq, Repr

/-- First phase of `lookupContainerIDByPID` (lines 252-272): walk the
configured PID fields; a field without a usable PID is skipped; a PID
found in the cache answers the lookup immediately; the remaining PIDs
are collected (in field order) for the read phase. -/
def collectPids (d : ADM) (now : Int) (ev : DEvent) :
    List String → Option String × List Nat × List DTrace
  | [] => (none, [], [])
  | f :: fs =>
    match eventPid ev f with
    | none => collectPids d now ev fs
    | some pid =>
      match d.cgroups with
      | some c =>
        match c.get now pid with
        | some cid => (some cid, [], [.cacheHit pid])
        | none =>
          let r := collectPids d now ev fs
          (r.1, pid :: r.2.1, r.2.2)
      | none =>
        let r := collectPids d now ev fs
        (r.1, pid :: r.2.1, r.2.2)

/-- Second phase of `lookupContainerIDByPID` (lines 274-290): read the
cgroup data of each collected PID; a missing entry is skipped; the
first existing entry (also a failed read other than not-exist)
initialises the cache at first use, extracts the container ID from the
paths, caches it under the PID — even when it is empty — and answers
the lookup.  The error returned alongside is the (always nil) error of
`getContainerIDFromCgroups`. -/
def scanPids (d : ADM) (now : Int) :
    List Nat → String × Option String × ADM × List DTrace
  | [] => ("", none, d, [])
  | pid :: rest =>
    match getProcessCgroups d.cgreader pid with
    | .notExist =>
      let r := scanPids d now rest
      (r.1, r.2.1, r.2.2.1, .cgCall pid .notExist :: r.2.2.2)
    | res =>
      let d1 := lazyCgroupCacheInit d
      let cid := getContainerIDFromCgroups res.paths
      let d2 := cachePut d1 now pid cid
      (cid, none, d2, [.cgCall pid res, .cachePut pid cid])

/-- Embedding of `lookupContainerIDByPID` (lines 249-293). -/
def lookupContainerIDByPID (d : ADM) (now : Int) (ev : DEvent) :
    String × Option String × ADM × List DTrace :=
  match collectPids d now ev d.pidFields with
  | (some cid, _, tr) => (cid, none, d, tr)
  | (none, pids, tr) =>
    let r := scanPids d now pids
    (r.1, r.2.1, r.2.2.1, tr ++ r.2.2.2)

/-- The result of one `Run`: the returned event (nil on error), the
returned error, the updated processor state and the side-effect
trace. -/
structure RunOut where
  event : Option DEvent
  err : Option String
  state : ADM
  trace : List DTrace

/-- The first `fields`-configured field of the event holding a string
value (lines 181-193). -/
def firstStringField (ev : DEvent) : List String → Option String
  | [] => none
  | f :: fs =>
    match ev.getVal f with
    | some (.str s) => some s
    | some _ => firstStringField ev fs
    | none => firstStringField ev fs

/-- Metadata merged into the event for a found container
(lines 201-219), as flat dotted paths. -/
def containerMeta (dedot : Bool) (c : Container) : List (String × DVal) :=
  (c.Labels.map (fun p =>
      ("container.labels." ++
         (if dedot then String.map (fun ch => if ch == '.' then '_' else ch) p.1
          else p.1),
       DVal.str p.2))) ++
  [("container.id", .str c.ID),
   ("container.image.name", .str c.Image),
   ("container.name", .str c.Name)]

/-- The final lookup phases of `Run` (lines 180-224): fall back to the
user-configured fields when no container ID was found, then query the
watcher and merge the container metadata into the event.  `d1` is the
processor state after the PID lookup (the configuration fields are
unchanged by it). -/
def runTail (d1 : ADM) (ev1 : DEvent) (cid1 : String) (tr1 : List DTrace) :
    RunOut :=
  let cid2 :=
    if cid1 == "" && !d1.fields.isEmpty then
      (firstStringField ev1 d1.fields).getD ""
    else cid1
  if cid2 == "" then
    { event := some ev1, err := none, state := d1, trace := tr1 }
  else
    match d1.watcher cid2 with
    | some c =>
      { event := some (List.foldl (fun e p => e.putVal p.1 p.2) ev1
          (containerMeta d1.dedot c))
        err := none
        state := d1
        trace := tr1 ++ [.watcherLookup cid2] }
    | none =>
      { event := some ev1, err := none, state := d1
        trace := tr1 ++ [.watcherLookup cid2] }

/-- The PID-lookup phase and the rest of `Run` (lines 168-224) given
the container ID extracted from the source path. -/
def runAfterSource (d : ADM) (now : Int) (ev : DEvent) (srcCid : String)
    (tr0 : List DTrace) : RunOut :=
  if srcCid == "" && !d.pidFields.isEmpty then
    let r := lookupContainerIDByPID d now ev
    match r.2.1 with
    | some e =>
      { event := none
        err := some ("error reading container ID: " ++ e)
        state := r.2.2.1
        trace := tr0 ++ r.2.2.2 }
    | none =>
      if r.1 ≠ "" then
        runTail r.2.2.1 (ev.putVal "container.id" (.str r.1)) r.1
          (tr0 ++ r.2.2.2)
      else
        runTail r.2.2.1 ev "" (tr0 ++ r.2.2.2)
  else
    runTail d ev srcCid tr0

/-- Embedding of `addDockerMetadata.Run` (lines 145-225): bail out
unchanged when no docker environment was detected; otherwise try the
source-path extractor, then the PID lookup, then the configured
fields, and enrich the event from the watcher's container metadata. -/
def ADM.Run (d : ADM) (now : Int) (ev : DEvent) : RunOut :=
  if !d.dockerAvailable then
    { event := some ev, err := none, state := d, trace := [] }
  else
    match d.sourceProcessor with
    | some proc =>
      match ev.getVal "log.file.path" with
      | some _ =>
        let r := proc ev
        match r.2 with
        | some _ =>
          { event := some r.1, err := none, state := d, trace := [.sourceProc] }
        | none =>
          let cid0 := match r.1.getVal "container.id" with
            | some (.str s) => s
            | _ => ""
          runAfterSource d now r.1 cid0 [.sourceProc]
      | none => runAfterSource d now ev "" []
    | none => runAfterSource d now ev "" []

/-- The configuration fields of the processor consumed by
`buildDockerMetadataProcessor`. -/
structure DockerConfig where
  fields : List String
  matchPIDs : List String
  matchSource : Bool
  dedot : Bool

/-- Embedding of `buildDockerMetadataProcessor` (lines 80-132) for a
successfully unpacked configuration: a failed watcher construction
(`watcherRes = none`) marks the docker environment as not detected;
the cgroup cache starts nil and no janitor runs. -/
def buildDockerMetadataProcessor (cfg : DockerConfig)
    (watcherRes : Option (String → Option Container))
    (srcProc : DEvent → DEvent × Option String)
    (rd : Nat → CgRes) : ADM :=
  { fields := cfg.fields
    pidFields := cfg.matchPIDs
    sourceProcessor := if cfg.matchSource then some srcProc else none
    watcher := fun cid => match watcherRes with
      | some w => w cid
      | none => none
    cgreader := rd
    cgroups := none
    janitor := none
    dockerAvailable := watcherRes.isSome
    dedot := cfg.dedot }

/-- Fold `Run` over a list of events, keeping the processor state. -/
def runAll (d : ADM) (now : Int) : List DEvent → ADM
  | [] => d
  | ev :: evs => runAll (ADM.Run d now ev).state now evs

/-- The PIDs whose cgroup data a trace actually read (calls whose
result was not a missing entry). -/
def cgReads (tr : List DTrace) : List Nat :=
  tr.filterMap (fun i => match i with
    | .cgCall p res => if res = .notExist then none else some p
    | _ => none)

/-- The first PID, in configured field order, whose cgroup entry
exists — the specification-level description of the PID read by a
cache-less lookup. -/
def firstExistingPid (d : ADM) (ev : DEvent) : Option Nat :=
  (d.pidFields.filterMap (eventPid ev)).find?
    (fun p => getProcessCgroups d.cgreader p ≠ .notExist)

/-- A sample 64-character container ID. -/
def sampleCID : String := String.mk (List.replicate 64 'a')

/-- A sample cgroup reader: PID 7 lives in a docker cgroup, every other
PID has no cgroup entry. -/
def sampleReader : Nat → CgRes :=
  fun p => if p == 7 then .ok ["/docker/" ++ sampleCID] else .notExist

/-- A sample watcher that knows no container. -/
def sampleWatcher : String → Option Container := fun _ => none

/-- A sample source processor that leaves the event alone. -/
def sampleSourceProc : DEvent → DEvent × Option String := fun e => (e, none)

/-- A sample processor configuration with one PID field. -/
def sampleConfig : DockerConfig :=
  { fields := [], matchPIDs := ["process.pid"], matchSource := false
    dedot := false }

/-- A sample processor with a detected docker environment. -/
def sampleADM : ADM :=
  buildDockerMetadataProcessor sampleConfig (some sampleWatcher)
    sampleSourceProc sampleReader

/-- A sample processor whose watcher construction failed. -/
def sampleNoDockerADM : ADM :=
  buildDockerMetadataProcessor sampleConfig none sampleSourceProc sampleReader

/-- A sample event whose PID field holds PID 7. -/
def samplePidEvent : DEvent := { fields := [("process.pid", .int 7)] }

/-- A sample event whose PID field holds PID 3 (no cgroup entry). -/
def sampleMissEvent : DEvent := { fields := [("process.pid", .int 3)] }

end Docker

/-! ## Helper lemmas -/

namespace O365

theorem string_len_pos_iff (s : String) : 0 < s.length ↔ s ≠ "" := by
  cases s with
  | mk data => cases data <;> simp [String.length, String.ext_iff]

theorem putField_ID (e : BeatEvent) (k : String) (v : EvValue) :
    (putField e k v).ID = e.ID := by
  simp only [putField]
  split <;> rfl

theorem toBeatEvent_ID_eq (cfg : APIConfig) (now : Int) (raw : String)
    (doc : Doc) :
    (toBeatEvent cfg now raw doc).ID =
      if cfg.SetIDFromAuditRecord then
        match getString doc "Id" with
        | .ok id => if 0 < id.length then some id else none
        | .error _ => none
      else none := by
  cases hd : getDateKey doc "CreationTime" <;>
    cases hg : getString doc "Id" <;>
    by_cases h2 : cfg.SetIDFromAuditRecord <;>
    by_cases h3 : cfg.PreserveOriginalEvent <;>
    simp [toBeatEvent, hd, hg, h2, h3, putField_ID] <;> split <;> simp

theorem getString_ok_iff (doc : Doc) (s : String) :
    getString doc "Id" = .ok s ↔ lookupKey doc "Id" = some (.str s) := by
  simp only [getString]
  cases hk : lookupKey doc "Id" with
  | none => simp
  | some v => cases v <;> simp

theorem runErrIsCtxErr_other (msg : String) (o : Option CtxErr) :
    runErrIsCtxErr (.other msg) o = false := by
  cases o with
  | none => rfl
  | some c => cases c <;> rfl

theorem runLoop_all_other (retryInterval : Int) (steps : List StepInput)
    (h : ∀ t ∈ steps, t.ctxErrHead = none ∧ ∃ m, t.runResult = .other m) :
    TraceItem.ret ∉ runLoop retryInterval steps ∧
    (publishedEvents (runLoop retryInterval steps)).length = steps.length := by
  induction steps with
  | nil => simp [runLoop, publishedEvents]
  | cons s rest ih =>
    obtain ⟨h1, m, h2⟩ := h s (by simp)
    have hrest := ih (fun t ht => h t (by simp [ht]))
    cases hp : s.pubErr <;>
      simp [runLoop, h1, h2, hp, runErrIsCtxErr_other, publishedEvents]
        at hrest ⊢ <;>
      exact ⟨hrest.1, hrest.2⟩

end O365

/-! ## Claims about the o365audit input -/

namespace O365

/-- C1: for every cursor state and maxRetention, `initCheckpoint`
returns a checkpoint whose `Timestamp` is not before
`now - maxRetention`; a new cursor or a failed deserialisation yields
exactly `now - maxRetention` (with a log message, the function
returning normally rather than aborting), and a loaded checkpoint whose
timestamp is before `now - maxRetention` is clamped to exactly the
limit with a data-loss warning. -/
theorem initCheckpoint_retention_policy (now maxRetention : Int)
    (c : CursorState) :
    now - maxRetention ≤ (initCheckpoint now c maxRetention).1.Timestamp
    ∧ (c = .fresh →
        initCheckpoint now c maxRetention =
          ({ Timestamp := now - maxRetention, StartTime := 0, Line := 0 },
           [.noSavedState]))
    ∧ (c = .unpackFailed →
        initCheckpoint now c maxRetention =
          ({ Timestamp := now - maxRetention, StartTime := 0, Line := 0 },
           [.errorLoadingState]))
    ∧ (∀ cp, c = .loaded cp → cp.Timestamp < now - maxRetention →
        (initCheckpoint now c maxRetention).1.Timestamp = now - maxRetention ∧
        CkptLog.retentionLimitExceeded ∈ (initCheckpoint now c maxRetention).2) := by
  refine ⟨?_, ?_, ?_, ?_⟩
  · cases c <;> simp only [initCheckpoint, Checkpoint.zero] <;>
      split <;> simp <;> omega
  · rintro rfl
    simp [initCheckpoint, Checkpoint.zero]
  · rintro rfl
    simp [initCheckpoint, Checkpoint.zero]
  · rintro cp rfl h
    simp [initCheckpoint, h]

/-- Witness for C1: a fresh cursor at `now = 100`, retention 30. -/
theorem initCheckpoint_retention_policy_witness :
    initCheckpoint 100 .fresh 30 =
      ({ Timestamp := 70, StartTime := 0, Line := 0 }, [.noSavedState]) :=
  (initCheckpoint_retention_policy 100 30 .fresh).2.1 rfl

/-- C8: `initCheckpoint` assigns only `Timestamp`: a loaded
checkpoint's `StartTime` and `Line` are returned exactly as loaded (in
the stale-clamp branch the result is the loaded checkpoint with only
`Timestamp` replaced), so a clamped checkpoint with a positive `Line`
still makes the caller pass the stale `StartTime` to the start action;
the new/failed-deserialisation branches return the zero values of those
fields. -/
theorem initCheckpoint_frame (now maxRetention : Int) (c : CursorState) :
    (∀ cp, c = .loaded cp →
       (initCheckpoint now c maxRetention).1.StartTime = cp.StartTime ∧
       (initCheckpoint now c maxRetention).1.Line = cp.Line)
    ∧ (∀ cp, c = .loaded cp → cp.Timestamp < now - maxRetention →
        (initCheckpoint now c maxRetention).1 =
          { cp with Timestamp := now - maxRetention })
    ∧ (∀ cp, c = .loaded cp → ¬ cp.Timestamp < now - maxRetention →
        (initCheckpoint now c maxRetention).1 = cp)
    ∧ (∀ cp, c = .loaded cp → cp.Timestamp < now - maxRetention →
        0 < cp.Line →
        runStartTimeOverride (initCheckpoint now c maxRetention).1 =
          some cp.StartTime)
    ∧ ((c = .fresh ∨ c = .unpackFailed) →
        (initCheckpoint now c maxRetention).1.StartTime = 0 ∧
        (initCheckpoint now c maxRetention).1.Line = 0) := by
  refine ⟨?_, ?_, ?_, ?_, ?_⟩
  · rintro cp rfl
    simp only [initCheckpoint]
    split <;> simp
  · rintro cp rfl h
    simp [initCheckpoint, h]
  · rintro cp rfl h
    simp [initCheckpoint, h]
  · rintro cp rfl h hl
    simp [initCheckpoint, h, runStartTimeOverride, hl]
  · rintro (rfl | rfl) <;> simp [initCheckpoint, Checkpoint.zero]

/-- Witness for C8: a stale loaded checkpoint with `Line = 3` keeps its
`StartTime = 7` as the caller's start-time override. -/
theorem initCheckpoint_frame_witness :
    runStartTimeOverride (initCheckpoint 100 (.loaded ⟨50, 7, 3⟩) 30).1 =
      some 7 :=
  (initCheckpoint_frame 100 30 (.loaded ⟨50, 7, 3⟩)).2.2.2.1 ⟨50, 7, 3⟩ rfl
    (by decide) (by decide)

/-- C3: `toBeatEvent` returns exactly one event for every record (it is
a total function); when parsing `CreationTime` fails the event's
timestamp is the current time and an `error.message` annotation
describes the parse failure, and when parsing succeeds the timestamp is
the parsed instant with no error annotation. -/
theorem toBeatEvent_malformed_timestamp (cfg : APIConfig) (now : Int)
    (raw : String) (doc : Doc) :
    (∀ e, getDateKey doc "CreationTime" = .error e →
       (toBeatEvent cfg now raw doc).Timestamp = now ∧
       (toBeatEvent cfg now raw doc).getField "error.message" =
         some (.strList ["failed parsing CreationTime: " ++ e]))
    ∧ (∀ t, getDateKey doc "CreationTime" = .ok t →
       (toBeatEvent cfg now raw doc).Timestamp = t ∧
       (toBeatEvent cfg now raw doc).getField "error.message" = none) := by
  constructor
  · intro e he
    cases hg : getString doc "Id" with
    | ok id =>
      by_cases h1 : 0 < id.length <;> by_cases h2 : cfg.SetIDFromAuditRecord <;>
        by_cases h3 : cfg.PreserveOriginalEvent <;>
        simp [toBeatEvent, he, hg, h1, h2, h3, putField, BeatEvent.getField]
    | error msg =>
      by_cases h2 : cfg.SetIDFromAuditRecord <;>
        by_cases h3 : cfg.PreserveOriginalEvent <;>
        simp [toBeatEvent, he, hg, h2, h3, putField, BeatEvent.getField]
  · intro t ht
    cases hg : getString doc "Id" with
    | ok id =>
      by_cases h1 : 0 < id.length <;> by_cases h2 : cfg.SetIDFromAuditRecord <;>
        by_cases h3 : cfg.PreserveOriginalEvent <;>
        simp [toBeatEvent, ht, hg, h1, h2, h3, putField, BeatEvent.getField]
    | error msg =>
      by_cases h2 : cfg.SetIDFromAuditRecord <;>
        by_cases h3 : cfg.PreserveOriginalEvent <;>
        simp [toBeatEvent, ht, hg, h2, h3, putField, BeatEvent.getField]

/-- Witness for C3: a record whose `CreationTime` is an unparseable
string is still turned into an event, timestamped "now". -/
theorem toBeatEvent_malformed_timestamp_witness :
    (toBeatEvent ⟨false, false⟩ 9 "raw" [("CreationTime", .str "bogus")]).Timestamp = 9 :=
  ((toBeatEvent_malformed_timestamp ⟨false, false⟩ 9 "raw"
      [("CreationTime", .str "bogus")]).1
    "CreationTime is not a valid date" rfl).1

/-- C7: the produced event's explicit identifier is set exactly when
`SetIDFromAuditRecord` is enabled and the document's `Id` field is a
non-empty string, in which case the event ID equals that string. -/
theorem toBeatEvent_id_iff (cfg : APIConfig) (now : Int) (raw : String)
    (doc : Doc) (id : String) :
    (toBeatEvent cfg now raw doc).ID = some id ↔
      cfg.SetIDFromAuditRecord = true ∧ lookupKey doc "Id" = some (.str id) ∧
        id ≠ "" := by
  rw [toBeatEvent_ID_eq]
  by_cases h2 : cfg.SetIDFromAuditRecord
  · simp only [h2, if_true, true_and]
    cases hg : getString doc "Id" with
    | ok s =>
      by_cases h1 : 0 < s.length
      · simp only [h1, if_true]
        constructor
        · rintro h
          cases h
          exact ⟨(getString_ok_iff doc id).mp hg, (string_len_pos_iff id).mp h1⟩
        · rintro ⟨hk, _⟩
          have : getString doc "Id" = .ok id := (getString_ok_iff doc id).mpr hk
          rw [hg] at this
          cases this
          rfl
      · simp only [h1, if_false]
        constructor
        · rintro h
          cases h
        · rintro ⟨hk, hne⟩
          have : getString doc "Id" = .ok id := (getString_ok_iff doc id).mpr hk
          rw [hg] at this
          cases this
          exact absurd ((string_len_pos_iff id).mpr hne) h1
    | error msg =>
      constructor
      · rintro h
        cases h
      · rintro ⟨hk, _⟩
        have : getString doc "Id" = .ok id := (getString_ok_iff doc id).mpr hk
        rw [hg] at this
        cases this
  · simp [h2]

/-- Witness for C7: with the option enabled and a non-empty `Id`, the
event ID is set to it. -/
theorem toBeatEvent_id_iff_witness :
    (toBeatEvent ⟨true, false⟩ 0 "r"
      [("CreationTime", .time 1), ("Id", .str "abc")]).ID = some "abc" :=
  (toBeatEvent_id_iff ⟨true, false⟩ 0 "r"
      [("CreationTime", .time 1), ("Id", .str "abc")] "abc").mpr
    ⟨rfl, rfl, by decide⟩

/-- C2: when one iteration's run returns an error that is neither nil
nor a context sentinel, the outer loop publishes exactly one error
event carrying `event.kind = "pipeline_error"` and `error.message`
equal to the error's text, reports Degraded, waits the configured
error-retry interval and re-enters the loop; a loop whose iterations
all fail this way never returns and publishes one error event per
failure, so no failure is silently swallowed. -/
theorem run_degraded_retry (retryInterval : Int) (s : StepInput)
    (rest : List StepInput) (msg : String)
    (h1 : s.ctxErrHead = none) (h2 : s.runResult = .other msg) :
    (runLoop retryInterval (s :: rest) =
       .publish (errorEvent s.now msg) ::
       ((match s.pubErr with
         | some m => [.updateStatus .Degraded ("failed to publish error: " ++ m)]
         | none => []) ++
        .updateStatus .Degraded msg ::
        .wait retryInterval ::
        runLoop retryInterval rest))
    ∧ publishedEvents (runLoop retryInterval (s :: rest)) =
        errorEvent s.now msg :: publishedEvents (runLoop retryInterval rest)
    ∧ (errorEvent s.now msg).getField "event.kind" =
        some (.str "pipeline_error")
    ∧ (errorEvent s.now msg).getField "error.message" = some (.str msg)
    ∧ TraceItem.updateStatus .Degraded msg ∈ runLoop retryInterval (s :: rest)
    ∧ TraceItem.wait retryInterval ∈ runLoop retryInterval (s :: rest)
    ∧ (∀ steps : List StepInput,
        (∀ t ∈ steps, t.ctxErrHead = none ∧ ∃ m, t.runResult = .other m) →
        TraceItem.ret ∉ runLoop retryInterval steps ∧
        (publishedEvents (runLoop retryInterval steps)).length = steps.length) := by
  refine ⟨?_, ?_, rfl, rfl, ?_, ?_,
      fun steps hs => runLoop_all_other retryInterval steps hs⟩ <;>
    cases hp : s.pubErr <;>
    simp [runLoop, h1, h2, hp, runErrIsCtxErr_other, publishedEvents,
      RunErr.text]

/-- Witness for C2: one failing iteration waits the retry interval. -/
theorem run_degraded_retry_witness :
    TraceItem.wait 2 ∈ runLoop 2 [sampleFailingStep] :=
  (run_degraded_retry 2 sampleFailingStep [] "boom" rfl rfl).2.2.2.2.2.1

/-- C4: when one iteration's run returns nil or the cancellation
sentinel, the outer `Run` terminates immediately with a nil result,
publishing no error event, performing no further iteration and leaving
the remaining environment unexamined. -/
theorem run_cancellation (retryInterval : Int) (s : StepInput)
    (rest : List StepInput) (h1 : s.ctxErrHead = none)
    (h2 : s.runResult = .ok ∨ s.runResult = .canceled) :
    o365Run retryInterval (s :: rest) = [.updateStatus .Starting "", .ret]
    ∧ publishedEvents (o365Run retryInterval (s :: rest)) = [] := by
  rcases h2 with h2 | h2 <;>
    simp [o365Run, runLoop, h1, h2, publishedEvents]

/-- Witness for C4: a nil iteration ends the run at once. -/
theorem run_cancellation_witness :
    o365Run 2 [sampleOkStep] = [.updateStatus .Starting "", .ret] :=
  (run_cancellation 2 sampleOkStep [] rfl (Or.inl rfl)).1

end O365

/-! ## Helper lemmas for the docker-metadata processor -/

namespace Docker

theorem Cache.put_get_live (c : Cache) (now t : Int) (k : Nat) (v : String)
    (h : t - now ≤ c.ttl) : (c.put now k v).get t k = some v := by
  simp [Cache.put, Cache.get]
  omega

theorem Cache.put_get_expired (c : Cache) (now t : Int) (k : Nat) (v : String)
    (h : c.ttl < t - now) : (c.put now k v).get t k = none := by
  simp [Cache.put, Cache.get]
  omega

theorem Cache.sweep_get_none (c : Cache) (now t t2 : Int) (k : Nat)
    (v : String) (h : c.ttl < t - now) :
    ((c.put now k v).sweep t).get t2 k = none := by
  simp only [Cache.put, Cache.sweep, Cache.get]
  rw [List.find?_eq_none.mpr]
  intro p hp
  have h2 := List.mem_of_mem_take hp
  simp only [List.mem_filter, List.mem_cons, decide_not, Bool.not_eq_eq_eq_not,
    Bool.not_true, decide_eq_false_iff_not, not_lt] at h2
  obtain ⟨hmem, hcond⟩ := h2
  rcases hmem with rfl | hmem
  · simp only [decide_eq_true_eq] at hcond
    omega
  · simp [hmem.2]

theorem filtered_no_k (c : Cache) (k : Nat) :
    ∀ p ∈ c.entries.filter (fun p => p.1 ≠ k), p.1 ≠ k := by
  intro p hp
  simp only [List.mem_filter, ne_eq, decide_not, Bool.not_eq_eq_eq_not,
    Bool.not_true, decide_eq_false_iff_not] at hp
  exact hp.2

theorem Cache.sweep_evicts_once (c : Cache) (now t : Int) (k : Nat)
    (v : String) (h : c.ttl < t - now) :
    ((c.put now k v).sweep t).evictedLog.count k = c.evictedLog.count k + 1 := by
  simp only [Cache.put, Cache.sweep]
  rw [List.filter_cons_of_pos (by simp; omega),
      List.filter_cons_of_neg (by simp; omega)]
  rw [List.count_append, List.count_append, List.map_cons, List.count_cons_self]
  have hz1 : (List.map (fun p => p.1)
      ((c.entries.filter (fun p => p.1 ≠ k)).filter
        (fun p => decide (c.ttl < t - p.2.insertedAt)))).count k = 0 := by
    rw [List.count_eq_zero]
    intro hk
    simp only [List.mem_map] at hk
    obtain ⟨p, hp, hpk⟩ := hk
    exact absurd hpk (filtered_no_k c k p (List.mem_of_mem_filter hp))
  have hz2 : (List.map (fun p => p.1)
      (((c.entries.filter (fun p => p.1 ≠ k)).filter
        (fun p => decide ¬ c.ttl < t - p.2.insertedAt)).drop
          c.capacity)).count k = 0 := by
    rw [List.count_eq_zero]
    intro hk
    simp only [List.mem_map] at hk
    obtain ⟨p, hp, hpk⟩ := hk
    exact absurd hpk
      (filtered_no_k c k p (List.mem_of_mem_filter (List.mem_of_mem_drop hp)))
  rw [hz1, hz2]

theorem runTail_state (d1 : ADM) (ev : DEvent) (cid : String)
    (tr : List DTrace) : (runTail d1 ev cid tr).state = d1 := by
  simp only [runTail]
  split <;> first
    | rfl
    | (split <;> first
        | rfl
        | (split <;> rfl))

theorem scanPids_all_notExist (d : ADM) (now : Int) (pids : List Nat)
    (h : ∀ p ∈ pids, getProcessCgroups d.cgreader p = .notExist) :
    scanPids d now pids =
      ("", none, d, pids.map (fun p => .cgCall p .notExist)) := by
  induction pids with
  | nil => rfl
  | cons pid rest ih =>
    have hp := h pid (by simp)
    have hr := ih (fun p hp2 => h p (by simp [hp2]))
    simp [scanPids, hp, hr]

theorem collectPids_none (d : ADM) (now : Int) (ev : DEvent)
    (fs : List String) (hd : d.cgroups = none) :
    collectPids d now ev fs = (none, fs.filterMap (eventPid ev), []) := by
  induction fs with
  | nil => rfl
  | cons f rest ih =>
    cases hf : eventPid ev f <;>
      simp [collectPids, hf, hd, ih, List.filterMap_cons]

theorem runAfterSource_state_noPid (d : ADM) (now : Int) (ev : DEvent)
    (cid : String) (tr : List DTrace) (h : d.pidFields = []) :
    (runAfterSource d now ev cid tr).state = d := by
  simp [runAfterSource, h, runTail_state]

theorem lookup_state_all_notExist (d : ADM) (now : Int) (ev : DEvent)
    (hd : d.cgroups = none)
    (h : ∀ f ∈ d.pidFields, ∀ p, eventPid ev f = some p →
      getProcessCgroups d.cgreader p = .notExist) :
    lookupContainerIDByPID d now ev =
      ("", none, d,
        (d.pidFields.filterMap (eventPid ev)).map
          (fun p => .cgCall p .notExist)) := by
  have hall : ∀ p ∈ d.pidFields.filterMap (eventPid ev),
      getProcessCgroups d.cgreader p = .notExist := by
    intro p hp
    rw [List.mem_filterMap] at hp
    obtain ⟨f, hf, hfp⟩ := hp
    exact h f hf p hfp
  simp [lookupContainerIDByPID, collectPids_none d now ev d.pidFields hd,
    scanPids_all_notExist d now _ hall]

theorem runAfterSource_state_notExist (d : ADM) (now : Int) (ev : DEvent)
    (cid : String) (tr : List DTrace) (hd : d.cgroups = none)
    (h : ∀ f ∈ d.pidFields, ∀ p, eventPid ev f = some p →
      getProcessCgroups d.cgreader p = .notExist) :
    (runAfterSource d now ev cid tr).state = d := by
  simp only [runAfterSource]
  split
  · rw [lookup_state_all_notExist d now ev hd h]
    simp [runTail_state]
  · exact runTail_state d ev cid tr

theorem run_state_of_afterSource (d : ADM) (now : Int) (ev : DEvent)
    (h : ∀ ev' cid tr, (runAfterSource d now ev' cid tr).state = d) :
    (ADM.Run d now ev).state = d := by
  simp only [ADM.Run]
  split
  · rfl
  · split
    · split
      · split
        · rfl
        · exact h _ _ _
      · exact h _ _ _
    · exact h _ _ _

theorem scanPids_init_implies_read (d : ADM) (now : Int) (pids : List Nat)
    (h : (scanPids d now pids).2.2.1.cgroups ≠ none ∨
         (scanPids d now pids).2.2.1.janitor ≠ d.janitor) :
    d.cgroups ≠ none ∨
      ∃ p res, res ≠ CgRes.notExist ∧
        DTrace.cgCall p res ∈ (scanPids d now pids).2.2.2 := by
  induction pids with
  | nil => simpa [scanPids] using h
  | cons pid rest ih =>
    cases hg : getProcessCgroups d.cgreader pid with
    | notExist =>
      simp only [scanPids, hg] at h ⊢
      rcases ih h with h2 | ⟨p, res, hres, hmem⟩
      · exact Or.inl h2
      · exact Or.inr ⟨p, res, hres, by simp [hmem]⟩
    | failed ps =>
      refine Or.inr ⟨pid, .failed ps, by simp, ?_⟩
      simp [scanPids, hg]
    | ok ps =>
      refine Or.inr ⟨pid, .ok ps, by simp, ?_⟩
      simp [scanPids, hg]

theorem cgReads_scanPids_le_one (d : ADM) (now : Int) (pids : List Nat) :
    (cgReads (scanPids d now pids).2.2.2).length ≤ 1 := by
  induction pids with
  | nil => simp [scanPids, cgReads]
  | cons pid rest ih =>
    cases hg : getProcessCgroups d.cgreader pid with
    | notExist => simpa [scanPids, hg, cgReads] using ih
    | failed ps => simp [scanPids, hg, cgReads]
    | ok ps => simp [scanPids, hg, cgReads]

theorem cgReads_collectPids_nil (d : ADM) (now : Int) (ev : DEvent)
    (fs : List String) : cgReads (collectPids d now ev fs).2.2 = [] := by
  induction fs with
  | nil => rfl
  | cons f rest ih =>
    cases hf : eventPid ev f with
    | none =>
      simp only [collectPids, hf]
      exact ih
    | some pid =>
      cases hc : d.cgroups with
      | none =>
        simp only [collectPids, hf, hc]
        exact ih
      | some c =>
        cases hg : c.get now pid with
        | some cid => simp [collectPids, hf, hc, hg, cgReads]
        | none =>
          simp only [collectPids, hf, hc, hg]
          exact ih

theorem scanPids_first_existing (d : ADM) (now : Int) (pids : List Nat)
    (p : Nat) (hd : d.cgroups = none)
    (hfind : pids.find?
      (fun q => getProcessCgroups d.cgreader q ≠ .notExist) = some p) :
    (scanPids d now pids).1 =
      getContainerIDFromCgroups (getProcessCgroups d.cgreader p).paths
    ∧ (scanPids d now pids).2.1 = none
    ∧ cgReads (scanPids d now pids).2.2.2 = [p]
    ∧ (scanPids d now pids).2.2.1.cgroups =
        some ((Cache.new cgroupCacheExpiration 100).put now p
          (getContainerIDFromCgroups (getProcessCgroups d.cgreader p).paths))
    ∧ (scanPids d now pids).2.2.1.janitor = some 5 := by
  induction pids with
  | nil => simp at hfind
  | cons pid rest ih =>
    cases hg : getProcessCgroups d.cgreader pid with
    | notExist =>
      rw [List.find?_cons_of_neg _ (by simp [hg])] at hfind
      have := ih hfind
      simp only [scanPids, hg, cgReads] at this ⊢
      simpa [cgReads] using this
    | failed ps =>
      rw [List.find?_cons_of_pos _ (by simp [hg])] at hfind
      cases hfind
      simp [scanPids, hg, cgReads, lazyCgroupCacheInit, hd, cachePut]
    | ok ps =>
      rw [List.find?_cons_of_pos _ (by simp [hg])] at hfind
      cases hfind
      simp [scanPids, hg, cgReads, lazyCgroupCacheInit, hd, cachePut]

theorem collectPids_cache_hit (d : ADM) (now : Int) (ev : DEvent)
    (fs : List String) (c : Cache) (p : Nat) (cid : String)
    (hc : d.cgroups = some c)
    (hp : (fs.filterMap (eventPid ev)).head? = some p)
    (hget : c.get now p = some cid) :
    collectPids d now ev fs = (some cid, [], [.cacheHit p]) := by
  induction fs with
  | nil => simp at hp
  | cons f rest ih =>
    cases hf : eventPid ev f with
    | none =>
      rw [List.filterMap_cons_none hf] at hp
      simp [collectPids, hf, ih hp]
    | some q =>
      rw [List.filterMap_cons_some hf] at hp
      simp only [List.head?_cons, Option.some.injEq] at hp
      subst hp
      simp [collectPids, hf, hc, hget]

theorem lookup_cache_hit (d : ADM) (now : Int) (ev : DEvent) (c : Cache)
    (p : Nat) (cid : String) (hc : d.cgroups = some c)
    (hp : (d.pidFields.filterMap (eventPid ev)).head? = some p)
    (hget : c.get now p = some cid) :
    lookupContainerIDByPID d now ev = (cid, none, d, [.cacheHit p]) := by
  simp [lookupContainerIDByPID,
    collectPids_cache_hit d now ev d.pidFields c p cid hc hp hget]

end Docker

/-! ## Claims about the docker-metadata processor -/

namespace Docker

theorem run_state_preserved (d : ADM) (now : Int) (ev : DEvent)
    (hd : d.cgroups = none)
    (hcase : d.dockerAvailable = false ∨ d.pidFields = [] ∨
      (d.sourceProcessor = none ∧
        ∀ f ∈ d.pidFields, ∀ p, eventPid ev f = some p →
          getProcessCgroups d.cgreader p = .notExist)) :
    (ADM.Run d now ev).state = d := by
  rcases hcase with h | h | ⟨hsp, h⟩
  · simp [ADM.Run, h]
  · exact run_state_of_afterSource d now ev
      (fun ev' cid tr => runAfterSource_state_noPid d now ev' cid tr h)
  · simp only [ADM.Run]
    split
    · rfl
    · simp only [hsp]
      exact runAfterSource_state_notExist d now ev "" [] hd h

/-- C6: the cgroup cache and its janitor are not created at processor
construction: a `Run` whose event cannot reach a PID lookup that reads
cgroup data (docker unavailable, no PID fields, or no configured PID of
the event has an existing cgroup entry) leaves the processor state —
nil cache and stopped janitor included — exactly unchanged, and so does
any sequence of such `Run`s; conversely, whenever a lookup leaves the
cache allocated or the janitor started, its trace contains an actual
cgroup read. -/
theorem lazyInit_only_on_demand (d : ADM) (now : Int) (ev : DEvent) :
    (d.cgroups = none →
      (d.dockerAvailable = false ∨ d.pidFields = [] ∨
        (d.sourceProcessor = none ∧
          ∀ f ∈ d.pidFields, ∀ p, eventPid ev f = some p →
            getProcessCgroups d.cgreader p = .notExist)) →
      (ADM.Run d now ev).state = d)
    ∧ (∀ evs : List DEvent, d.cgroups = none →
        (d.dockerAvailable = false ∨ d.pidFields = [] ∨
          (d.sourceProcessor = none ∧
            ∀ ev' ∈ evs, ∀ f ∈ d.pidFields, ∀ p, eventPid ev' f = some p →
              getProcessCgroups d.cgreader p = .notExist)) →
        runAll d now evs = d)
    ∧ ((lookupContainerIDByPID d now ev).2.2.1.cgroups ≠ none ∨
       (lookupContainerIDByPID d now ev).2.2.1.janitor ≠ d.janitor →
       d.cgroups ≠ none ∨
         ∃ p res, res ≠ CgRes.notExist ∧
           DTrace.cgCall p res ∈ (lookupContainerIDByPID d now ev).2.2.2) := by
  refine ⟨fun hd hcase => run_state_preserved d now ev hd hcase, ?_, ?_⟩
  · intro evs hd hcase
    induction evs with
    | nil => rfl
    | cons ev' rest ih =>
      have hstep : (ADM.Run d now ev').state = d := by
        apply run_state_preserved d now ev' hd
        rcases hcase with h | h | ⟨hsp, h⟩
        · exact Or.inl h
        · exact Or.inr (Or.inl h)
        · exact Or.inr (Or.inr ⟨hsp, h ev' (by simp)⟩)
      have hrest : runAll d now rest = d := by
        apply ih
        rcases hcase with h | h | ⟨hsp, h⟩
        · exact Or.inl h
        · exact Or.inr (Or.inl h)
        · exact Or.inr (Or.inr ⟨hsp, fun e he => h e (by simp [he])⟩)
      simp only [runAll, hstep]
      exact hrest
  · intro h
    rcases hx : collectPids d now ev d.pidFields with ⟨r1, pids, tr⟩
    cases r1 with
    | some cid =>
      have hlk : lookupContainerIDByPID d now ev = (cid, none, d, tr) := by
        simp [lookupContainerIDByPID, hx]
      rw [hlk] at h
      rcases h with h2 | h2
      · exact Or.inl h2
      · exact absurd rfl h2
    | none =>
      have hlk : lookupContainerIDByPID d now ev =
          ((scanPids d now pids).1, (scanPids d now pids).2.1,
           (scanPids d now pids).2.2.1, tr ++ (scanPids d now pids).2.2.2) := by
        simp [lookupContainerIDByPID, hx]
      rw [hlk] at h ⊢
      rcases scanPids_init_implies_read d now pids h with h2 | ⟨p, res, hres, hmem⟩
      · exact Or.inl h2
      · exact Or.inr ⟨p, res, hres, List.mem_append_right _ hmem⟩

/-- Witness for C6: an event whose PID has no cgroup entry leaves the
processor (nil cache, stopped janitor) unchanged. -/
theorem lazyInit_only_on_demand_witness :
    (ADM.Run sampleADM 0 sampleMissEvent).state = sampleADM :=
  (lazyInit_only_on_demand sampleADM 0 sampleMissEvent).1 rfl
    (Or.inr (Or.inr ⟨rfl, by
      intro f hf p hp
      have hf2 : f = "process.pid" := by
        simpa [sampleADM, buildDockerMetadataProcessor, sampleConfig] using hf
      subst hf2
      have hp2 : p = 3 := by
        simpa [eventPid, DEvent.getVal, sampleMissEvent] using hp.symm
      subst hp2
      rfl⟩))

/-- C9: one PID lookup reads cgroup data for at most one PID; for a
cache-less lookup the PID read is exactly the first configured PID
whose cgroup entry exists, and its result — the empty string included —
is cached under that PID; a lookup whose first configured PID is cached
is answered entirely from the cache, with no cgroup read and no further
PID consulted. -/
theorem lookup_single_cgroup_read (d : ADM) (now : Int) (ev : DEvent) :
    (cgReads (lookupContainerIDByPID d now ev).2.2.2).length ≤ 1
    ∧ (∀ p, d.cgroups = none → firstExistingPid d ev = some p →
        cgReads (lookupContainerIDByPID d now ev).2.2.2 = [p] ∧
        (lookupContainerIDByPID d now ev).1 =
          getContainerIDFromCgroups (getProcessCgroups d.cgreader p).paths ∧
        ∃ c, (lookupContainerIDByPID d now ev).2.2.1.cgroups = some c ∧
          c.get now p = some (lookupContainerIDByPID d now ev).1)
    ∧ (∀ c p cid, d.cgroups = some c →
        (d.pidFields.filterMap (eventPid ev)).head? = some p →
        c.get now p = some cid →
        lookupContainerIDByPID d now ev = (cid, none, d, [.cacheHit p])) := by
  refine ⟨?_, ?_, fun c p cid hc hp hget =>
    lookup_cache_hit d now ev c p cid hc hp hget⟩
  · have hnil := cgReads_collectPids_nil d now ev d.pidFields
    rcases hx : collectPids d now ev d.pidFields with ⟨r1, pids, tr⟩
    rw [hx] at hnil
    cases r1 with
    | some cid =>
      have hlk : lookupContainerIDByPID d now ev = (cid, none, d, tr) := by
        simp [lookupContainerIDByPID, hx]
      simp only [hlk]
      simp only at hnil
      simp [hnil]
    | none =>
      have hlk : lookupContainerIDByPID d now ev =
          ((scanPids d now pids).1, (scanPids d now pids).2.1,
           (scanPids d now pids).2.2.1, tr ++ (scanPids d now pids).2.2.2) := by
        simp [lookupContainerIDByPID, hx]
      simp only [hlk, cgReads, List.filterMap_append]
      simp only [cgReads] at hnil ⊢
      rw [hnil]
      simpa [cgReads] using cgReads_scanPids_le_one d now pids
  · intro p hd hfind
    have hcoll := collectPids_none d now ev d.pidFields hd
    have hscan := scanPids_first_existing d now
      (d.pidFields.filterMap (eventPid ev)) p hd (by
        simpa [firstExistingPid] using hfind)
    have hlk : lookupContainerIDByPID d now ev =
        ((scanPids d now (d.pidFields.filterMap (eventPid ev))).1,
         (scanPids d now (d.pidFields.filterMap (eventPid ev))).2.1,
         (scanPids d now (d.pidFields.filterMap (eventPid ev))).2.2.1,
         [] ++ (scanPids d now (d.pidFields.filterMap (eventPid ev))).2.2.2) := by
      simp [lookupContainerIDByPID, hcoll]
    rw [hlk]
    refine ⟨by simpa using hscan.2.2.1, hscan.1, ?_⟩
    refine ⟨(Cache.new cgroupCacheExpiration 100).put now p
      (getContainerIDFromCgroups (getProcessCgroups d.cgreader p).paths),
      hscan.2.2.2.1, ?_⟩
    rw [hscan.1]
    exact Cache.put_get_live _ now now p _
      (by norm_num [Cache.new, cgroupCacheExpiration])

/-- Witness for C9: a cache-less lookup on an event naming PID 7 (whose
cgroup entry exists) reads exactly that one PID. -/
theorem lookup_single_cgroup_read_witness :
    cgReads (lookupContainerIDByPID sampleADM 0 samplePidEvent).2.2.2 = [7] :=
  ((lookup_single_cgroup_read sampleADM 0 samplePidEvent).2.1 7 rfl rfl).1

/-- C5: the cache constructed by `lazyCgroupCacheInit` has a five-minute
TTL, capacity 100 and a five-second janitor; `Put(k,v)` followed by
`Get(k)` within the TTL returns the value, an expired entry is not
returned by `Get` (the lifespan is fixed from insertion, never refreshed
by a read), and after the TTL elapses one janitor sweep removes the
entry — every later `Get` misses — invoking the eviction listener for
the key exactly once. -/
theorem cache_ttl_semantics (d : ADM) (c : Cache) (now t t2 : Int) (k : Nat)
    (v : String) (hd : d.cgroups = none) :
    ((lazyCgroupCacheInit d).cgroups =
        some (Cache.new cgroupCacheExpiration 100) ∧
     (lazyCgroupCacheInit d).janitor = some 5 ∧
     cgroupCacheExpiration = 5 * 60)
    ∧ (t - now ≤ c.ttl → (c.put now k v).get t k = some v)
    ∧ (c.ttl < t - now → (c.put now k v).get t k = none)
    ∧ (c.ttl < t - now →
        ((c.put now k v).sweep t).get t2 k = none ∧
        ((c.put now k v).sweep t).evictedLog.count k =
          c.evictedLog.count k + 1) := by
  refine ⟨⟨?_, ?_, rfl⟩, Cache.put_get_live c now t k v,
    Cache.put_get_expired c now t k v,
    fun h => ⟨Cache.sweep_get_none c now t t2 k v h,
      Cache.sweep_evicts_once c now t k v h⟩⟩ <;>
    simp [lazyCgroupCacheInit, hd]

/-- Witness for C5: a concrete put/get within the TTL and a sweep after
it has elapsed. -/
theorem cache_ttl_semantics_witness :
    ((Cache.new 300 100).put 0 5 "cid").get 100 5 = some "cid" ∧
    (((Cache.new 300 100).put 0 5 "cid").sweep 301).get 400 5 = none :=
  ⟨(cache_ttl_semantics sampleNoDockerADM (Cache.new 300 100) 0 100 400 5
      "cid" rfl).2.1 (by decide),
   ((cache_ttl_semantics sampleNoDockerADM (Cache.new 300 100) 0 301 400 5
      "cid" rfl).2.2.2 (by decide)).1⟩

/-- C10: when no docker environment was detected at construction,
`Run` returns the input event unchanged with a nil error, touching
neither the event nor the processor state and performing no lookup of
any kind; a processor built from a failed watcher construction is in
exactly that situation. -/
theorem run_no_docker_identity (d : ADM) (now : Int) (ev : DEvent)
    (h : d.dockerAvailable = false) :
    ADM.Run d now ev =
      { event := some ev, err := none, state := d, trace := [] }
    ∧ ∀ cfg srcProc rd now2 ev2,
        ADM.Run (buildDockerMetadataProcessor cfg none srcProc rd) now2 ev2 =
          { event := some ev2, err := none,
            state := buildDockerMetadataProcessor cfg none srcProc rd,
            trace := [] } := by
  constructor
  · simp [ADM.Run, h]
  · intro cfg srcProc rd now2 ev2
    rfl

/-- Witness for C10: the no-docker sample processor passes an event
through untouched. -/
theorem run_no_docker_identity_witness :
    ADM.Run sampleNoDockerADM 0 samplePidEvent =
      { event := some samplePidEvent, err := none, state := sampleNoDockerADM,
        trace := [] } :=
  (run_no_docker_identity sampleNoDockerADM 0 samplePidEvent rfl).1

end Docker
